import Mathlib

/-!
The traffic-light simulation of `traffic.c`.

A shallow embedding of `src/traffic.c`: the hand-written counting semaphore
(`Zem_t`, `Zem_init`, `Zem_wait`, `Zem_post`), the command-line check
`getArguments`, the bodies of the two thread functions
(`trafficLightController`, `vehicleThread`) as instruction lists, the thread
and semaphore operations `main` performs, and an interleaving step model of
the running simulation.

Conventions.
* A C `int` is an `Int` kept inside `[INT_MIN, INT_MAX]`; `++` and `--` wrap
  modulo `2^32` (`wrapInt`), the behaviour of the usual two's-complement
  targets for what the C standard leaves undefined.
* `Zem_wait` and `Zem_post` run under the semaphore's mutex, so each is one
  atomic step; a `Zem_wait` that finds `value <= 0` is not enabled (the caller
  sleeps on the condition variable and re-tests the value when woken).
* `sleep` and `usleep` take one step and change nothing: time is not modelled,
  every interleaving is allowed.
* The step model covers the simulation from the creation of the controller
  thread until `main` cancels it; `main` takes part in it by creating vehicle
  threads, each with a direction `rand() % 4`.
-/

namespace Traffic

/-! ## Constants -/

def VEHICLE_CNT_MIN : Nat := 10
def VEHICLE_CNT_MAX : Nat := 500

def LIGHT_WAIT : Nat := 4
def YELLOW_WAIT : Nat := 1
def TRANSIT_TIME_BASE : Nat := 1
def ARRIVAL_INTERVAL : Nat := 2

def NORTH : Fin 4 := 0
def EAST : Fin 4 := 1
def SOUTH : Fin 4 := 2
def WEST : Fin 4 := 3

/-! ## Machine integers -/

def INT_MAX : Int := 2147483647
def INT_MIN : Int := -2147483648
def LONG_MAX : Int := 9223372036854775807
def LONG_MIN : Int := -9223372036854775808

/-- The 32-bit two's-complement representative of `x`: the value an `int`
holds after an arithmetic result `x` is stored in it. -/
def wrapInt (x : Int) : Int := (x + 2147483648) % 4294967296 - 2147483648

/-- Conversion of an `int` to `unsigned int` (the usual arithmetic conversion
applied when an `int` is compared with an `unsigned int`). -/
def toUnsigned (x : Int) : Int := x % 4294967296

/-! ## The semaphore -/

/-- The `Zem_t` structure. Only `value` carries state in the model; `cond`
and `lock` make `Zem_wait` and `Zem_post` atomic and blocking. -/
structure Zem_t where
  value : Int
deriving DecidableEq, Repr

/-- `Zem_init(s, value)`: `s->value = value`. -/
def Zem_init (value : Int) : Zem_t := ⟨value⟩

/-- `Zem_wait(s)`: while `value <= 0` the caller is suspended (`none`: the step
is not enabled); otherwise `value--`. -/
def Zem_wait (s : Zem_t) : Option Zem_t :=
  if s.value ≤ 0 then none else some ⟨wrapInt (s.value - 1)⟩

/-- `Zem_post(s)`: `value++` (and a signal on the condition variable). -/
def Zem_post (s : Zem_t) : Zem_t := ⟨wrapInt (s.value + 1)⟩

/-- `k` successive calls of `Zem_post`. -/
def postN : Nat → Zem_t → Zem_t
  | 0, s => s
  | k + 1, s => postN k (Zem_post s)

/-- `k` successive calls of `Zem_wait` by a caller running alone: `none` as
soon as one of them finds `value <= 0` and blocks. -/
def waitN : Nat → Zem_t → Option Zem_t
  | 0, s => some s
  | k + 1, s => (Zem_wait s).bind (waitN k)

/-! ## Command-line check -/

/-- The `isdigit` of the C locale. -/
def isdigit (c : Char) : Bool := 48 ≤ c.toNat && c.toNat ≤ 57

/-- The `isspace` of the C locale: space and the control characters 9 to 13. -/
def isspace (c : Char) : Bool := c.toNat = 32 || (9 ≤ c.toNat && c.toNat ≤ 13)

/-- The decimal value of a run of digits, most significant first. -/
def digitsValue (ds : List Char) : Nat :=
  ds.foldl (fun acc c => 10 * acc + (c.toNat - 48)) 0

/-- The C library's `strtol(s, NULL, 10)` with a 64-bit `long`: leading white
space, an optional sign, then the longest run of digits; a value outside the
range of `long` is replaced by `LONG_MAX` or `LONG_MIN`. -/
def strtol (s : List Char) : Int :=
  let t := s.dropWhile isspace
  let u := match t with
    | '-' :: r => r
    | '+' :: r => r
    | _ => t
  let n : Int := (digitsValue (u.takeWhile isdigit) : Nat)
  if t.head? = some '-' then max (-n) LONG_MIN else min n LONG_MAX

/-- The C library's `atoi`, as glibc defines it: `(int) strtol(s, NULL, 10)`.
The conversion to `int` keeps the low 32 bits. For a value that fits an `int`
this is the value the C standard prescribes; for a larger one the standard
leaves the result undefined and this is what glibc returns on an LP64
target. -/
def atoi (s : String) : Int := wrapInt (strtol s.toList)

/-- The C library's `strcmp`: zero exactly when the two strings are equal. -/
def strcmp (a b : String) : Int :=
  if a = b then 0 else if a < b then -1 else 1

/-- `getArguments(argc, argv, vc)`: the returned flag and the content of `*vc`
afterwards (`vc` is its content before the call). `argc` is the length of
`argv`. The `printf` of each rejecting branch is left out. The comparisons
with the `unsigned int` constants are made after converting the `int` result
of `atoi` to `unsigned int`. -/
def getArguments (argv : List String) (vc : Int) : Bool × Int :=
  let argc := argv.length
  if argc = 1 then (false, vc)
  else if argc ≠ 3 then (false, vc)
  else if strcmp (argv.getD 1 "") "-vc" ≠ 0 then (false, vc)
  else if (argv.getD 2 "").toList.any (fun c => !isdigit c) then (false, vc)
  else if toUnsigned (atoi (argv.getD 2 "")) > (VEHICLE_CNT_MAX : Int)
      ∨ toUnsigned (atoi (argv.getD 2 "")) < (VEHICLE_CNT_MIN : Int) then (false, vc)
  else (true, atoi (argv.getD 2 ""))

/-! ## The thread functions -/

inductive Axis
  | northSouth
  | eastWest
deriving DecidableEq, Repr

inductive Colour
  | green
  | yellow
  | red
deriving DecidableEq, Repr

/-- A line written to standard output by a thread. -/
inductive Event
  | light (c : Colour) (a : Axis)
  | approaching (direction : Fin 4)
  | passing (direction : Fin 4)
deriving DecidableEq, Repr

/-- The statements of the two thread functions. `wait d` and `post d` are
`Zem_wait(&trafficLights[d])` and `Zem_post(&trafficLights[d])`. -/
inductive Instr
  | printf (e : Event)
  | sleep (seconds : Nat)
  | usleep
  | wait (d : Fin 4)
  | post (d : Fin 4)
deriving DecidableEq, Repr

/-- The body of the `while (1)` loop of `trafficLightController`, statement
by statement. -/
def trafficLightController : List Instr :=
  [ .printf (.light .green .northSouth),
    .post NORTH,
    .post SOUTH,
    .sleep LIGHT_WAIT,
    .printf (.light .yellow .northSouth),
    .sleep YELLOW_WAIT,
    .printf (.light .red .northSouth),
    .wait NORTH,
    .wait SOUTH,
    .printf (.light .green .eastWest),
    .post EAST,
    .post WEST,
    .sleep LIGHT_WAIT,
    .printf (.light .yellow .eastWest),
    .sleep YELLOW_WAIT,
    .printf (.light .red .eastWest),
    .wait EAST,
    .wait WEST ]

/-- The body of `vehicleThread` for a vehicle coming from `direction`. -/
def vehicleThread (direction : Fin 4) : List Instr :=
  [ .printf (.approaching direction),
    .wait direction,
    .printf (.passing direction),
    .sleep TRANSIT_TIME_BASE,
    .usleep,
    .post direction ]

/-- One statement executed on the shared array `trafficLights` and the
output written so far; `none` when the statement is a `Zem_wait` that is not
enabled. -/
def exec (i : Instr) (trafficLights : Fin 4 → Zem_t) (out : List Event) :
    Option ((Fin 4 → Zem_t) × List Event) :=
  match i with
  | .printf e => some (trafficLights, out ++ [e])
  | .sleep _ => some (trafficLights, out)
  | .usleep => some (trafficLights, out)
  | .wait d =>
    (Zem_wait (trafficLights d)).map fun z => (Function.update trafficLights d z, out)
  | .post d => some (Function.update trafficLights d (Zem_post (trafficLights d)), out)

/-- The gate operation of a statement: `(true, d)` for a post on gate `d`,
`(false, d)` for a wait. -/
def gateOp : Instr → Option (Bool × Fin 4)
  | .post d => some (true, d)
  | .wait d => some (false, d)
  | _ => none

/-- The line a statement writes. -/
def emitted : Instr → Option Event
  | .printf e => some e
  | _ => none

/-! ## What `main` does -/

/-- The semaphore and thread calls of `main`. -/
inductive Call
  | Zem_init (i : Nat) (value : Int)
  | createController
  | createVehicle (i : Nat) (direction : Fin 4)
  | joinVehicle (i : Nat)
  | cancelController
  | joinController
deriving DecidableEq, Repr

/-- The calls `main` makes, in order, for the argument vector `argv`;
`rand i` is the value `rand()` returns for the direction of vehicle `i`.
The result of `getArguments` is not tested: `vehicleCount` is whatever the
call left in it, starting from 0. -/
def main (argv : List String) (rand : Nat → Nat) : List Call :=
  let vehicleCount : Int := (getArguments argv 0).2
  (List.range 4).map (fun i => Call.Zem_init i 0)
    ++ [Call.createController]
    ++ (List.range vehicleCount.toNat).map
        (fun i => Call.createVehicle i (Fin.ofNat (rand i)))
    ++ (List.range vehicleCount.toNat).map (fun i => Call.joinVehicle i)
    ++ [Call.cancelController, Call.joinController]

/-! ## The running simulation -/

/-- A vehicle thread: its direction and the index of its next statement in
`vehicleThread direction` (6 once it has returned). -/
structure Vehicle where
  direction : Fin 4
  pc : Nat
deriving DecidableEq, Repr

/-- The state of the simulation: the four semaphores, the index of the
controller's next statement in its loop body, the vehicle threads created so
far and the output written so far. -/
structure Sim where
  trafficLights : Fin 4 → Zem_t
  controller : Nat
  vehicles : List Vehicle
  out : List Event

/-- The state when `main` has initialised the four semaphores and created the
controller thread. -/
def Sim.init : Sim :=
  { trafficLights := fun _ => Zem_init 0, controller := 0, vehicles := [], out := [] }

/-- Who takes a step: `main` creating a vehicle thread with the given
direction, the controller, or the vehicle thread created `i`-th. -/
inductive Actor
  | main (direction : Fin 4)
  | controller
  | vehicle (i : Nat)
deriving DecidableEq, Repr

/-- One step of one actor; `none` when that actor cannot move (a blocked
`Zem_wait`, a vehicle that has returned or does not exist). -/
def step (s : Sim) : Actor → Option Sim
  | .main direction => some { s with vehicles := s.vehicles ++ [⟨direction, 0⟩] }
  | .controller =>
    match trafficLightController[s.controller]? with
    | none => none
    | some i =>
      (exec i s.trafficLights s.out).map fun r =>
        { s with
          trafficLights := r.1
          out := r.2
          controller := (s.controller + 1) % trafficLightController.length }
  | .vehicle k =>
    match s.vehicles[k]? with
    | none => none
    | some v =>
      match (vehicleThread v.direction)[v.pc]? with
      | none => none
      | some i =>
        (exec i s.trafficLights s.out).map fun r =>
          { s with
            trafficLights := r.1
            out := r.2
            vehicles := s.vehicles.set k { v with pc := v.pc + 1 } }

/-- A schedule run from a state: `none` if one of its steps is not enabled. -/
def run (s : Sim) : List Actor → Option Sim
  | [] => some s
  | a :: rest => (step s a).bind fun s' => run s' rest

/-- The states of the simulation: those some interleaving leads to. -/
inductive Reachable : Sim → Prop
  | init : Reachable Sim.init
  | step {s s' : Sim} (a : Actor) : Reachable s → step s a = some s' → Reachable s'

/-- A vehicle is mid-crossing once its `Zem_wait` has returned and until its
`Zem_post` has run. -/
def midCrossing (v : Vehicle) : Prop := 2 ≤ v.pc ∧ v.pc ≤ 5

instance (v : Vehicle) : Decidable (midCrossing v) :=
  inferInstanceAs (Decidable (2 ≤ v.pc ∧ v.pc ≤ 5))

/-- A gate is open when it has capacity or a vehicle that took its capacity is
still mid-crossing. -/
def gateOpen (s : Sim) (d : Fin 4) : Prop :=
  0 < (s.trafficLights d).value ∨ ∃ v ∈ s.vehicles, v.direction = d ∧ midCrossing v

instance (s : Sim) (d : Fin 4) : Decidable (gateOpen s d) :=
  inferInstanceAs (Decidable
    (0 < (s.trafficLights d).value ∨ ∃ v ∈ s.vehicles, v.direction = d ∧ midCrossing v))

/-- Posts minus waits on gate `d` among the first `pc` statements of `body`. -/
def net (body : List Instr) (pc : Nat) (d : Fin 4) : Int :=
  (((body.take pc).filter (· = Instr.post d)).length : Int)
    - (((body.take pc).filter (· = Instr.wait d)).length : Int)

/-- Capacity units of gate `d` held by the vehicles of a list. -/
def held (vs : List Vehicle) (d : Fin 4) : Int :=
  (vs.map fun v => if v.direction = d ∧ midCrossing v then (1 : Int) else 0).sum

/-- The six lines one iteration of the controller loop writes. -/
def cycleOutput : List Event :=
  [ .light .green .northSouth, .light .yellow .northSouth, .light .red .northSouth,
    .light .green .eastWest, .light .yellow .eastWest, .light .red .eastWest ]

/-- The state a schedule leads to from the initial state (the initial state
itself when the schedule cannot be run). -/
def after (sched : List Actor) : Sim := (run Sim.init sched).getD Sim.init

/-- A single vehicle from the North: it announces itself, the controller turns
North-South green and posts both gates, the vehicle takes the North gate and
crosses while the controller runs through green and yellow to red, the
vehicle posts the gate back, and the controller takes the North gate. The
controller is then about to take the South gate. -/
def northCrossing : List Actor :=
  [ .main NORTH, .vehicle 0,
    .controller, .controller, .controller,
    .vehicle 0, .vehicle 0,
    .controller, .controller, .controller, .controller,
    .vehicle 0, .vehicle 0, .vehicle 0,
    .controller ]

/-- A vehicle from the North and one from the South, both mid-crossing during
the North-South green. -/
def bothCrossing : List Actor :=
  [ .main NORTH, .main SOUTH, .vehicle 0, .vehicle 1,
    .controller, .controller, .controller,
    .vehicle 0, .vehicle 1 ]

/-- Two vehicles from the North during the North-South green: the first has
taken the gate and the controller has reached its `Zem_wait` on it. -/
def queueNorth : List Actor :=
  [ .main NORTH, .main NORTH, .vehicle 0, .vehicle 1,
    .controller, .controller, .controller,
    .vehicle 0,
    .controller, .controller, .controller, .controller ]

/-- The same state with the lines `o` written before its output. -/
def Sim.prependOut (o : List Event) (s : Sim) : Sim := { s with out := o ++ s.out }

/-- What is read off a state to compare it with another: the controller's
position, the vehicles, the output and the four gate values. -/
def Sim.observe (s : Sim) : Nat × List Vehicle × List Event × List Int :=
  (s.controller, s.vehicles, s.out, [(s.trafficLights 0).value, (s.trafficLights 1).value,
    (s.trafficLights 2).value, (s.trafficLights 3).value])

/-- The change a statement makes to the value of gate `d` when it runs. -/
def delta (i : Instr) (d : Fin 4) : Int :=
  match i with
  | .post g => if g = d then 1 else 0
  | .wait g => if g = d then -1 else 0
  | _ => 0

/-- The bookkeeping invariant of the simulation: the controller is inside its
loop body, no gate is negative, and the value of each gate plus the units held
by mid-crossing vehicles is what the controller has posted and not yet taken
back in its current iteration. -/
structure Inv (s : Sim) : Prop where
  pc_lt : s.controller < 18
  nonneg : ∀ d, 0 ≤ (s.trafficLights d).value
  tokens : ∀ d, (s.trafficLights d).value + held s.vehicles d
    = net trafficLightController s.controller d

/-! ## The semaphore alone -/

theorem wrapInt_of_range {x : Int} (h1 : INT_MIN ≤ x) (h2 : x ≤ INT_MAX) : wrapInt x = x := by
  unfold wrapInt
  unfold INT_MIN at h1
  unfold INT_MAX at h2
  omega

theorem wrapInt_range (x : Int) : INT_MIN ≤ wrapInt x ∧ wrapInt x ≤ INT_MAX := by
  unfold wrapInt INT_MIN INT_MAX
  omega

theorem postN_value (k : Nat) (c : Int) (h1 : INT_MIN ≤ c) (h2 : c ≤ INT_MAX) :
    (postN k ⟨c⟩).value = wrapInt (c + k) := by
  induction k generalizing c with
  | zero => simp [postN, wrapInt_of_range h1 h2]
  | succ k ih =>
    simp only [postN, Zem_post]
    rw [ih _ (wrapInt_range _).1 (wrapInt_range _).2]
    unfold wrapInt
    push_cast
    omega

theorem postN_of_range (k : Nat) (c : Int) (h1 : INT_MIN ≤ c) (h2 : c + k ≤ INT_MAX) :
    postN k ⟨c⟩ = ⟨c + k⟩ := by
  have hk : (0 : Int) ≤ k := Int.natCast_nonneg k
  have h := postN_value k c h1 (by omega)
  rw [wrapInt_of_range (by omega) h2] at h
  cases hp : postN k ⟨c⟩ with
  | mk v => rw [hp] at h; simpa using h

theorem waitN_of_range (k : Nat) (c : Int) (h1 : 0 ≤ c) (h2 : c + k ≤ INT_MAX) :
    waitN k ⟨c + k⟩ = some ⟨c⟩ := by
  induction k with
  | zero => simp [waitN]
  | succ k ih =>
    have hk : (0 : Int) ≤ k := Int.natCast_nonneg k
    push_cast at h2 ⊢
    have hpos : ¬ (c + (k + 1) ≤ 0) := by omega
    have hw : wrapInt (c + (k + 1) - 1) = c + k :=
      by rw [wrapInt_of_range] <;> unfold INT_MIN INT_MAX at * <;> omega
    simp only [waitN, Zem_wait, hpos, if_false, Option.some_bind, hw]
    exact ih (by omega)

theorem waitN_blocked (k : Nat) (c : Int) (h : c ≤ 0) : waitN (k + 1) ⟨c⟩ = none := by
  simp [waitN, Zem_wait, h]

/-! ## The controller's loop body -/

theorem controller_length : trafficLightController.length = 18 := rfl

theorem controller_net_range :
    ∀ pc : Fin 18, ∀ d : Fin 4,
      0 ≤ net trafficLightController pc d ∧ net trafficLightController pc d ≤ 1 := by
  decide

theorem controller_net_step :
    ∀ pc : Fin 18, ∀ d : Fin 4,
      net trafficLightController ((pc + 1) % 18) d
        = net trafficLightController pc d + delta (trafficLightController.get pc) d := by
  decide

theorem controller_axes_apart :
    ∀ pc : Fin 18,
      ¬ ((1 ≤ net trafficLightController pc NORTH ∨ 1 ≤ net trafficLightController pc SOUTH)
        ∧ (1 ≤ net trafficLightController pc EAST ∨ 1 ≤ net trafficLightController pc WEST)) := by
  decide

theorem controller_wait_net :
    ∀ pc : Fin 18, ∀ d : Fin 4,
      trafficLightController.get pc = Instr.wait d → net trafficLightController pc d = 1 := by
  decide

/-! ## Vehicles -/

theorem held_nil (d : Fin 4) : held [] d = 0 := rfl

theorem held_cons (v : Vehicle) (vs : List Vehicle) (d : Fin 4) :
    held (v :: vs) d = (if v.direction = d ∧ midCrossing v then 1 else 0) + held vs d := by
  simp [held]

theorem held_append (vs ws : List Vehicle) (d : Fin 4) :
    held (vs ++ ws) d = held vs d + held ws d := by
  simp [held]

theorem held_nonneg (vs : List Vehicle) (d : Fin 4) : 0 ≤ held vs d := by
  induction vs with
  | nil => simp [held_nil]
  | cons v vs ih =>
    rw [held_cons]
    split_ifs <;> omega

theorem held_pos_of_mem {vs : List Vehicle} {v : Vehicle} {d : Fin 4}
    (hv : v ∈ vs) (hd : v.direction = d) (hm : midCrossing v) : 1 ≤ held vs d := by
  induction vs with
  | nil => cases hv
  | cons w ws ih =>
    rw [held_cons]
    have h0 := held_nonneg ws d
    rcases List.mem_cons.1 hv with rfl | hmem
    · rw [if_pos ⟨hd, hm⟩]; omega
    · have := ih hmem
      split_ifs <;> omega

theorem exists_of_held_pos {vs : List Vehicle} {d : Fin 4} (h : 1 ≤ held vs d) :
    ∃ (k : Nat) (v : Vehicle), vs[k]? = some v ∧ v.direction = d ∧ midCrossing v := by
  induction vs with
  | nil => simp [held_nil] at h
  | cons w ws ih =>
    rw [held_cons] at h
    by_cases hw : w.direction = d ∧ midCrossing w
    · exact ⟨0, w, by simp, hw.1, hw.2⟩
    · rw [if_neg hw] at h
      obtain ⟨k, v, hk, hd, hm⟩ := ih (by omega)
      exact ⟨k + 1, v, by simpa using hk, hd, hm⟩

theorem held_set {vs : List Vehicle} {k : Nat} {v : Vehicle} (w : Vehicle) (d : Fin 4)
    (hk : vs[k]? = some v) :
    held (vs.set k w) d
      = held vs d - (if v.direction = d ∧ midCrossing v then 1 else 0)
        + (if w.direction = d ∧ midCrossing w then 1 else 0) := by
  induction vs generalizing k with
  | nil => simp at hk
  | cons u us ih =>
    cases k with
    | zero =>
      simp at hk
      subst hk
      simp only [List.set_cons_zero, held_cons]
      omega
    | succ k =>
      simp at hk
      simp only [List.set_cons_succ, held_cons, ih hk]
      omega

theorem vehicle_pc_lt {v : Vehicle} {i : Instr}
    (hi : (vehicleThread v.direction)[v.pc]? = some i) : v.pc < 6 := by
  have h := (List.getElem?_eq_some.1 hi).1
  simpa [vehicleThread] using h

theorem vehicle_held_step {v : Vehicle} {i : Instr} (d : Fin 4)
    (hi : (vehicleThread v.direction)[v.pc]? = some i) :
    (if v.direction = d ∧ midCrossing { v with pc := v.pc + 1 } then (1 : Int) else 0)
      = (if v.direction = d ∧ midCrossing v then 1 else 0) - delta i d := by
  have hlt := vehicle_pc_lt hi
  obtain ⟨dir, pc⟩ := v
  simp only at hi hlt ⊢
  interval_cases pc <;> simp [vehicleThread] at hi <;> subst hi <;>
    by_cases hd : dir = d <;> simp [delta, midCrossing, hd]

/-! ## One statement -/

theorem exec_value {i : Instr} {g g' : Fin 4 → Zem_t} {out out' : List Event}
    (hnn : ∀ d, 0 ≤ (g d).value) (hle : ∀ d, (g d).value ≤ 1)
    (h : exec i g out = some (g', out')) (d : Fin 4) :
    (g' d).value = (g d).value + delta i d ∧ 0 ≤ (g' d).value := by
  have h0 := hnn d
  cases i with
  | printf e => simp [exec] at h; obtain ⟨rfl, -⟩ := h; simp [delta, h0]
  | sleep n => simp [exec] at h; obtain ⟨rfl, -⟩ := h; simp [delta, h0]
  | usleep => simp [exec] at h; obtain ⟨rfl, -⟩ := h; simp [delta, h0]
  | wait e =>
    have he0 := hnn e
    have he1 := hle e
    by_cases hpos : (g e).value ≤ 0
    · simp [exec, Zem_wait, hpos] at h
    · simp [exec, Zem_wait, hpos] at h
      obtain ⟨rfl, -⟩ := h
      have hv : (g e).value = 1 := by omega
      by_cases hed : e = d
      · subst hed
        simp [delta, hv, wrapInt]
      · simp [delta, hed, Function.update_noteq (Ne.symm hed), h0]
  | post e =>
    have he0 := hnn e
    have he1 := hle e
    simp [exec] at h
    obtain ⟨rfl, -⟩ := h
    by_cases hed : e = d
    · subst hed
      have hw : wrapInt ((g e).value + 1) = (g e).value + 1 :=
        wrapInt_of_range (by unfold INT_MIN; omega) (by unfold INT_MAX; omega)
      simp [delta, Zem_post, hw]
      omega
    · simp [delta, hed, Function.update_noteq (Ne.symm hed), h0]

/-! ## The invariant -/

theorem Inv.le_one {s : Sim} (h : Inv s) (d : Fin 4) : (s.trafficLights d).value ≤ 1 := by
  have h1 := h.tokens d
  have h2 := held_nonneg s.vehicles d
  have h3 := (controller_net_range ⟨s.controller, h.pc_lt⟩ d).2
  simp only at h3
  omega

theorem Inv.held_le_one {s : Sim} (h : Inv s) (d : Fin 4) : held s.vehicles d ≤ 1 := by
  have h1 := h.tokens d
  have h2 := h.nonneg d
  have h3 := (controller_net_range ⟨s.controller, h.pc_lt⟩ d).2
  simp only at h3
  omega

theorem inv_init : Inv Sim.init := by
  refine ⟨by decide, fun d => by simp [Sim.init, Zem_init], fun d => ?_⟩
  simp [Sim.init, Zem_init, held_nil]
  revert d
  decide

theorem inv_step {s s' : Sim} {a : Actor} (h : Inv s) (hs : step s a = some s') : Inv s' := by
  cases a with
  | main direction =>
    simp [step] at hs
    subst hs
    refine ⟨h.pc_lt, h.nonneg, fun d => ?_⟩
    have := h.tokens d
    simp only [held_append, held_cons, held_nil]
    simp [midCrossing]
    exact this
  | controller =>
    simp only [step] at hs
    cases hi : trafficLightController[s.controller]? with
    | none => simp [hi] at hs
    | some i =>
      simp only [hi, Option.map_eq_some'] at hs
      obtain ⟨⟨g', out'⟩, hex, rfl⟩ := hs
      have hlt := h.pc_lt
      have hget : trafficLightController.get ⟨s.controller, hlt⟩ = i := by
        have := List.getElem?_eq_some.1 hi
        obtain ⟨_, h2⟩ := this
        simpa using h2
      have hnet := controller_net_step ⟨s.controller, hlt⟩
      rw [hget] at hnet
      refine ⟨?_, fun d => (exec_value h.nonneg h.le_one hex d).2, fun d => ?_⟩
      · simp only [controller_length]
        omega
      · have h1 := (exec_value h.nonneg h.le_one hex d).1
        have h2 := h.tokens d
        have h3 := hnet d
        simp only [controller_length] at h3 ⊢
        simp only at h1 h3 ⊢
        rw [h3, h1]
        omega
  | vehicle k =>
    simp only [step] at hs
    cases hv : s.vehicles[k]? with
    | none => simp [hv] at hs
    | some v =>
      simp only [hv] at hs
      cases hi : (vehicleThread v.direction)[v.pc]? with
      | none => simp [hi] at hs
      | some i =>
        simp only [hi, Option.map_eq_some'] at hs
        obtain ⟨⟨g', out'⟩, hex, rfl⟩ := hs
        refine ⟨h.pc_lt, fun d => (exec_value h.nonneg h.le_one hex d).2, fun d => ?_⟩
        have h1 := (exec_value h.nonneg h.le_one hex d).1
        have h2 := h.tokens d
        have h3 := held_set { v with pc := v.pc + 1 } d hv
        have h4 := vehicle_held_step d hi
        simp only at h1 h3 h4 ⊢
        rw [h3, h1, h4]
        omega

theorem inv_of_reachable {s : Sim} (h : Reachable s) : Inv s := by
  induction h with
  | init => exact inv_init
  | step a _ hs ih => exact inv_step ih hs

theorem reachable_of_run {s s' : Sim} (sched : List Actor) (h : Reachable s)
    (hr : run s sched = some s') : Reachable s' := by
  induction sched generalizing s with
  | nil => simp [run] at hr; subst hr; exact h
  | cons a rest ih =>
    simp only [run] at hr
    cases hs : step s a with
    | none => simp [hs] at hr
    | some t =>
      simp only [hs, Option.some_bind] at hr
      exact ih (Reachable.step a h hs) hr

theorem reachable_after (sched : List Actor) : Reachable (after sched) := by
  unfold after
  cases hr : run Sim.init sched with
  | none => exact Reachable.init
  | some t => exact reachable_of_run sched Reachable.init hr

theorem gateOpen_net {s : Sim} (h : Inv s) {d : Fin 4} (ho : gateOpen s d) :
    1 ≤ net trafficLightController s.controller d := by
  have h1 := h.tokens d
  have h2 := h.nonneg d
  have h3 := held_nonneg s.vehicles d
  rcases ho with hv | ⟨v, hv, hd, hm⟩
  · omega
  · have := held_pos_of_mem hv hd hm
    omega

theorem held_two {vs pre mid post : List Vehicle} {v w : Vehicle} {d : Fin 4}
    (hvs : vs = pre ++ v :: (mid ++ w :: post))
    (hv : v.direction = d) (hw : w.direction = d)
    (hmv : midCrossing v) (hmw : midCrossing w) : 2 ≤ held vs d := by
  subst hvs
  have h1 := held_nonneg pre d
  have h2 := held_nonneg mid d
  have h3 := held_nonneg post d
  simp only [held_append, held_cons, if_pos (And.intro hv hmv), if_pos (And.intro hw hmw)]
  omega

theorem crossing_step_enabled {s : Sim} {k : Nat} {v : Vehicle}
    (hk : s.vehicles[k]? = some v) (hm : midCrossing v) :
    (step s (.vehicle k)).isSome = true := by
  obtain ⟨dir, pc⟩ := v
  obtain ⟨h2, h5⟩ := hm
  simp only at h2 h5
  simp only [step, hk]
  interval_cases pc <;> simp [vehicleThread, exec]

theorem crossing_step {s : Sim} {k : Nat} {v : Vehicle}
    (hk : s.vehicles[k]? = some v) (hm : midCrossing v) :
    ∃ s', step s (.vehicle k) = some s'
      ∧ s'.vehicles[k]? = some { v with pc := v.pc + 1 } := by
  have hlen : k < s.vehicles.length := (List.getElem?_eq_some.1 hk).1
  obtain ⟨dir, pc⟩ := v
  obtain ⟨h2, h5⟩ := hm
  simp only at h2 h5
  simp only [step, hk]
  interval_cases pc <;> simp [vehicleThread, exec, hlen]

theorem crossing_runs_to_end (k : Nat) (n : Nat) :
    ∀ (s : Sim) (v : Vehicle), s.vehicles[k]? = some v → 2 ≤ v.pc → v.pc + n = 6 →
      (run s (List.replicate n (Actor.vehicle k))).isSome = true := by
  induction n with
  | zero => intro s v _ _ _; rfl
  | succ n ih =>
    intro s v hk h2 h6
    obtain ⟨s', hs, hk'⟩ := crossing_step hk ⟨h2, by omega⟩
    simp only [List.replicate_succ, run, hs, Option.some_bind]
    exact ih s' _ hk' (by simp only; omega) (by simp only; omega)

theorem controller_blocked {s : Sim} (h : Inv s) {d : Fin 4}
    (hi : trafficLightController[s.controller]? = some (.wait d))
    (hb : Zem_wait (s.trafficLights d) = none) :
    (s.trafficLights d).value = 0
      ∧ ∃ (k : Nat) (v : Vehicle), s.vehicles[k]? = some v ∧ v.direction = d ∧ midCrossing v
        ∧ (step s (.vehicle k)).isSome = true
        ∧ (run s (List.replicate (6 - v.pc) (Actor.vehicle k))).isSome = true := by
  have hget : trafficLightController.get ⟨s.controller, h.pc_lt⟩ = .wait d := by
    obtain ⟨_, h2⟩ := List.getElem?_eq_some.1 hi
    simpa using h2
  have hnet := controller_wait_net ⟨s.controller, h.pc_lt⟩ d hget
  simp only at hnet
  have h1 := h.tokens d
  have h2 := h.nonneg d
  have hle : (s.trafficLights d).value ≤ 0 := by
    by_contra hc
    simp [Zem_wait, hc] at hb
  have hheld : 1 ≤ held s.vehicles d := by omega
  obtain ⟨k, v, hk, hd, hm⟩ := exists_of_held_pos hheld
  exact ⟨by omega, k, v, hk, hd, hm, crossing_step_enabled hk hm,
    crossing_runs_to_end k (6 - v.pc) s v hk hm.1 (by have := hm.2; omega)⟩

theorem controller_or_vehicle_enabled {s : Sim} (h : Inv s) :
    ∃ a : Actor, (∀ d, a ≠ .main d) ∧ (step s a).isSome = true := by
  have hlt := h.pc_lt
  have hlen : s.controller < trafficLightController.length := by
    rw [controller_length]; exact hlt
  have hi : trafficLightController[s.controller]? = some trafficLightController[s.controller] :=
    List.getElem?_eq_getElem hlen
  by_cases hen : (step s .controller).isSome = true
  · exact ⟨.controller, fun d => by simp, hen⟩
  · cases hc : trafficLightController[s.controller] with
    | printf e => rw [hc] at hi; simp [step, hi, exec] at hen
    | sleep n => rw [hc] at hi; simp [step, hi, exec] at hen
    | usleep => rw [hc] at hi; simp [step, hi, exec] at hen
    | post e => rw [hc] at hi; simp [step, hi, exec] at hen
    | wait e =>
      rw [hc] at hi
      have hb : Zem_wait (s.trafficLights e) = none := by
        cases hz : Zem_wait (s.trafficLights e) with
        | none => rfl
        | some z => simp [step, hi, exec, hz] at hen
      obtain ⟨-, k, v, -, -, -, hstep, -⟩ := controller_blocked h hi hb
      exact ⟨.vehicle k, fun d => by simp, hstep⟩

/-! ## The claims about the running simulation -/

/-- C1: in every reachable state of the simulation (four gates initialised to
0, controller loop, any number of vehicles with any directions, any
interleaving) the value of each of the four gates is at least 0. -/
theorem C1_gate_values_nonneg (s : Sim) (h : Reachable s) (d : Fin 4) :
    0 ≤ (s.trafficLights d).value :=
  (inv_of_reachable h).nonneg d

theorem C1_gate_values_nonneg_witness :
    Reachable (after queueNorth) ∧ 0 ≤ ((after queueNorth).trafficLights SOUTH).value :=
  ⟨reachable_after queueNorth,
    C1_gate_values_nonneg (after queueNorth) (reachable_after queueNorth) SOUTH⟩

/-- C5: in every reachable state the gates of at most one axis are open (a
gate is open when its value is positive or a vehicle that took its capacity is
mid-crossing): never is a North or South gate open together with an East or
West gate, and no North/South vehicle is mid-crossing together with an
East/West vehicle. -/
theorem C5_one_axis_open (s : Sim) (h : Reachable s) :
    ¬ ((gateOpen s NORTH ∨ gateOpen s SOUTH) ∧ (gateOpen s EAST ∨ gateOpen s WEST))
      ∧ ∀ v ∈ s.vehicles, ∀ w ∈ s.vehicles,
          (v.direction = NORTH ∨ v.direction = SOUTH) → midCrossing v →
          (w.direction = EAST ∨ w.direction = WEST) → ¬ midCrossing w := by
  have hinv := inv_of_reachable h
  have hapart := controller_axes_apart ⟨s.controller, hinv.pc_lt⟩
  simp only at hapart
  have key : ¬ ((gateOpen s NORTH ∨ gateOpen s SOUTH)
      ∧ (gateOpen s EAST ∨ gateOpen s WEST)) := by
    rintro ⟨hns, hew⟩
    apply hapart
    constructor
    · rcases hns with ho | ho
      · exact Or.inl (gateOpen_net hinv ho)
      · exact Or.inr (gateOpen_net hinv ho)
    · rcases hew with ho | ho
      · exact Or.inl (gateOpen_net hinv ho)
      · exact Or.inr (gateOpen_net hinv ho)
  refine ⟨key, fun v hv w hw hvd hvm hwd hwm => key ⟨?_, ?_⟩⟩
  · rcases hvd with hd | hd
    · exact Or.inl (Or.inr ⟨v, hv, hd, hvm⟩)
    · exact Or.inr (Or.inr ⟨v, hv, hd, hvm⟩)
  · rcases hwd with hd | hd
    · exact Or.inl (Or.inr ⟨w, hw, hd, hwm⟩)
    · exact Or.inr (Or.inr ⟨w, hw, hd, hwm⟩)

theorem C5_one_axis_open_witness :
    Reachable (after bothCrossing)
      ∧ (gateOpen (after bothCrossing) NORTH ∧ gateOpen (after bothCrossing) SOUTH)
      ∧ ¬ (gateOpen (after bothCrossing) EAST ∨ gateOpen (after bothCrossing) WEST) :=
  ⟨reachable_after bothCrossing, by decide, fun hew =>
    (C5_one_axis_open (after bothCrossing) (reachable_after bothCrossing)).1
      ⟨Or.inl (by decide), hew⟩⟩

/-- C6: whenever the controller completes the close phase of an axis (its
second Zem_wait of that axis returns), both gates of that axis have value
exactly 0, whatever the vehicles did during the window; and in the run with a
single vehicle from the North the North gate is at 0 when the controller has
closed North-South. -/
theorem C6_close_phase_zero (s s' : Sim) (h : Reachable s)
    (hs : step s .controller = some s') :
    (trafficLightController[s.controller]? = some (.wait SOUTH) →
        (s'.trafficLights NORTH).value = 0 ∧ (s'.trafficLights SOUTH).value = 0)
      ∧ (trafficLightController[s.controller]? = some (.wait WEST) →
        (s'.trafficLights EAST).value = 0 ∧ (s'.trafficLights WEST).value = 0)
      ∧ (run Sim.init (northCrossing ++ [.controller])).map
          (fun t => (t.controller, (t.trafficLights NORTH).value,
            (t.trafficLights SOUTH).value)) = some (9, 0, 0) := by
  have hinv := inv_of_reachable h
  have hinv' := inv_step hinv hs
  have hpc : s'.controller = (s.controller + 1) % 18 := by
    simp only [step] at hs
    cases hi : trafficLightController[s.controller]? with
    | none => simp [hi] at hs
    | some i =>
      simp only [hi, Option.map_eq_some'] at hs
      obtain ⟨r, -, rfl⟩ := hs
      rfl
  have hzero : ∀ d, net trafficLightController s'.controller d = 0 →
      (s'.trafficLights d).value = 0 := by
    intro d hd
    have h1 := hinv'.tokens d
    have h2 := hinv'.nonneg d
    have h3 := held_nonneg s'.vehicles d
    omega
  have hwhere : ∀ pc : Fin 18,
      (trafficLightController.get pc = .wait SOUTH → (pc : Nat) = 8)
        ∧ (trafficLightController.get pc = .wait WEST → (pc : Nat) = 17) := by
    decide
  have hget : ∀ i, trafficLightController[s.controller]? = some i →
      trafficLightController.get ⟨s.controller, hinv.pc_lt⟩ = i := by
    intro i hi
    obtain ⟨_, h2⟩ := List.getElem?_eq_some.1 hi
    simpa using h2
  refine ⟨fun hi => ?_, fun hi => ?_, by decide⟩
  · have h8 := (hwhere ⟨s.controller, hinv.pc_lt⟩).1 (hget _ hi)
    simp only at h8
    rw [h8] at hpc
    exact ⟨hzero NORTH (by rw [hpc]; decide), hzero SOUTH (by rw [hpc]; decide)⟩
  · have h17 := (hwhere ⟨s.controller, hinv.pc_lt⟩).2 (hget _ hi)
    simp only at h17
    rw [h17] at hpc
    exact ⟨hzero EAST (by rw [hpc]; decide), hzero WEST (by rw [hpc]; decide)⟩

theorem C6_close_phase_zero_witness :
    Reachable (after northCrossing)
      ∧ step (after northCrossing) .controller = some (after (northCrossing ++ [.controller]))
      ∧ trafficLightController[(after northCrossing).controller]? = some (.wait SOUTH)
      ∧ ((after (northCrossing ++ [.controller])).trafficLights NORTH).value = 0
      ∧ ((after (northCrossing ++ [.controller])).trafficLights SOUTH).value = 0 :=
  ⟨reachable_after northCrossing, rfl, by decide,
    (C6_close_phase_zero (after northCrossing) (after (northCrossing ++ [Actor.controller]))
      (reachable_after northCrossing) rfl).1 (by decide)⟩

/-- C7, as the code has it: in every reachable state each gate's value is at
most 1 and at most one vehicle of each direction is mid-crossing, so vehicles
arriving from the same direction pass one at a time. -/
theorem C7_one_unit_per_gate (s : Sim) (h : Reachable s) :
    (∀ d, (s.trafficLights d).value ≤ 1)
      ∧ ∀ (pre mid post : List Vehicle) (v w : Vehicle),
          s.vehicles = pre ++ v :: (mid ++ w :: post) → v.direction = w.direction →
          midCrossing v → ¬ midCrossing w := by
  have hinv := inv_of_reachable h
  refine ⟨hinv.le_one, fun pre mid post v w hvs hd hv hw => ?_⟩
  have h1 := held_two hvs hd rfl hv hw
  have h2 := hinv.held_le_one w.direction
  omega

theorem C7_one_unit_per_gate_witness :
    Reachable (after queueNorth) ∧ ((after queueNorth).trafficLights SOUTH).value ≤ 1 :=
  ⟨reachable_after queueNorth,
    (C7_one_unit_per_gate (after queueNorth) (reachable_after queueNorth)).1 SOUTH⟩

/-- C7 as stated fails: no reachable state has a gate whose value exceeds 1,
and none has two vehicles from the same direction mid-crossing together. -/
theorem C7_no_unlimited_passage :
    (¬ ∃ s : Sim, Reachable s ∧ ∃ d, 1 < (s.trafficLights d).value)
      ∧ ¬ ∃ s : Sim, Reachable s ∧ ∃ (pre mid post : List Vehicle) (v w : Vehicle),
          s.vehicles = pre ++ v :: (mid ++ w :: post) ∧ v.direction = w.direction
            ∧ midCrossing v ∧ midCrossing w := by
  constructor
  · rintro ⟨s, h, d, hd⟩
    have := (inv_of_reachable h).le_one d
    omega
  · rintro ⟨s, h, pre, mid, post, v, w, hvs, hd, hv, hw⟩
    have h1 := held_two hvs hd rfl hv hw
    have h2 := (inv_of_reachable h).held_le_one w.direction
    omega

/-- C10: the simulation never deadlocks: in every reachable state the
controller or a vehicle has an enabled step; and whenever the controller is
at a Zem_wait that blocks, the gate's value is 0 and a vehicle from that
direction is mid-crossing, its next step is enabled, and it runs without
blocking through its remaining statements, the last of which is its
Zem_post. -/
theorem C10_no_deadlock (s : Sim) (h : Reachable s) :
    (∃ a : Actor, (∀ d, a ≠ .main d) ∧ (step s a).isSome = true)
      ∧ ∀ d, trafficLightController[s.controller]? = some (.wait d) →
          Zem_wait (s.trafficLights d) = none →
          (s.trafficLights d).value = 0
            ∧ ∃ (k : Nat) (v : Vehicle), s.vehicles[k]? = some v ∧ v.direction = d
                ∧ midCrossing v ∧ (step s (.vehicle k)).isSome = true
                ∧ (run s (List.replicate (6 - v.pc) (Actor.vehicle k))).isSome = true :=
  ⟨controller_or_vehicle_enabled (inv_of_reachable h),
    fun _ hi hb => controller_blocked (inv_of_reachable h) hi hb⟩

theorem C10_no_deadlock_witness :
    Reachable (after queueNorth)
      ∧ trafficLightController[(after queueNorth).controller]? = some (.wait NORTH)
      ∧ Zem_wait ((after queueNorth).trafficLights NORTH) = none
      ∧ ((after queueNorth).trafficLights NORTH).value = 0 :=
  ⟨reachable_after queueNorth, by decide, by decide,
    ((C10_no_deadlock (after queueNorth) (reachable_after queueNorth)).2 NORTH
      (by decide) (by decide)).1⟩

/-! ## The controller running alone -/

theorem run_append (s : Sim) (a b : List Actor) :
    run s (a ++ b) = (run s a).bind fun t => run t b := by
  induction a generalizing s with
  | nil => simp [run]
  | cons x xs ih =>
    simp only [List.cons_append, run]
    cases step s x with
    | none => simp
    | some t => simp [ih]

theorem exec_prepend (o : List Event) (i : Instr) (g : Fin 4 → Zem_t) (out : List Event) :
    exec i g (o ++ out) = (exec i g out).map fun r => (r.1, o ++ r.2) := by
  cases i with
  | wait d => cases h : Zem_wait (g d) <;> simp [exec, h]
  | _ => simp [exec]

theorem step_prepend (o : List Event) (s : Sim) (a : Actor) :
    step (s.prependOut o) a = (step s a).map (Sim.prependOut o) := by
  cases a with
  | main direction => simp [step, Sim.prependOut]
  | controller =>
    cases hi : trafficLightController[s.controller]? with
    | none => simp [step, Sim.prependOut, hi]
    | some i =>
      cases hx : exec i s.trafficLights s.out <;>
        simp [step, Sim.prependOut, hi, hx, exec_prepend]
  | vehicle k =>
    cases hv : s.vehicles[k]? with
    | none => simp [step, Sim.prependOut, hv]
    | some v =>
      cases hi : (vehicleThread v.direction)[v.pc]? with
      | none => simp [step, Sim.prependOut, hv, hi]
      | some i =>
        cases hx : exec i s.trafficLights s.out <;>
          simp [step, Sim.prependOut, hv, hi, hx, exec_prepend]

theorem run_prepend (o : List Event) (s : Sim) (sched : List Actor) :
    run (s.prependOut o) sched = (run s sched).map (Sim.prependOut o) := by
  induction sched generalizing s with
  | nil => simp [run]
  | cons a rest ih =>
    simp only [run, step_prepend]
    cases step s a with
    | none => rfl
    | some t => simp [ih]

theorem eq_of_observe {s t : Sim} (h : s.observe = t.observe) : s = t := by
  obtain ⟨g, pc, vs, out⟩ := s
  obtain ⟨g', pc', vs', out'⟩ := t
  simp only [Sim.observe, Prod.mk.injEq, List.cons.injEq] at h
  obtain ⟨rfl, rfl, rfl, h0, h1, h2, h3, -⟩ := h
  have hg : g = g' := by
    funext d
    have hz : ∀ a b : Zem_t, a.value = b.value → a = b := by
      intro a b hab
      cases a; cases b; simp only at hab; rw [hab]
    fin_cases d
    · exact hz _ _ h0
    · exact hz _ _ h1
    · exact hz _ _ h2
    · exact hz _ _ h3
  rw [hg]

theorem controller_cycle :
    run Sim.init (List.replicate 18 Actor.controller)
      = some ⟨fun _ => Zem_init 0, 0, [], cycleOutput⟩ := by
  have h : (run Sim.init (List.replicate 18 Actor.controller)).map Sim.observe
      = some (Sim.observe ⟨fun _ => Zem_init 0, 0, [], cycleOutput⟩) := by
    decide
  cases hr : run Sim.init (List.replicate 18 Actor.controller) with
  | none =>
    rw [hr] at h
    cases h
  | some t =>
    rw [hr] at h
    simp only [Option.map_some', Option.some.injEq] at h
    rw [eq_of_observe h]

theorem controller_cycles (n : Nat) :
    run Sim.init (List.replicate (18 * n) Actor.controller)
      = some ⟨fun _ => Zem_init 0, 0, [], (List.replicate n cycleOutput).flatten⟩ := by
  induction n with
  | zero => simp [run, Sim.init]
  | succ n ih =>
    have hsplit : List.replicate (18 * (n + 1)) Actor.controller
        = List.replicate 18 Actor.controller ++ List.replicate (18 * n) Actor.controller := by
      rw [← List.replicate_add]
      congr 1
      omega
    have hpre : (⟨fun _ => Zem_init 0, 0, [], cycleOutput⟩ : Sim)
        = Sim.init.prependOut cycleOutput := by
      simp [Sim.prependOut, Sim.init]
    rw [hsplit, run_append, controller_cycle, Option.some_bind, hpre, run_prepend, ih]
    simp [Sim.prependOut, List.replicate_succ]

/-! ## The remaining claims -/

/-- C2, within the range of the int field: for every N from 0 to INT_MAX,
on a semaphore created by Zem_init(s, 0), N calls of Zem_post followed by N
calls of Zem_wait return the value to 0; none of the waits blocks: the j-th
wait (counting from 0) finds value N - j > 0. -/
theorem C2_post_wait_round_trip (N : Nat) (hN : (N : Int) ≤ INT_MAX) :
    waitN N (postN N (Zem_init 0)) = some ⟨0⟩
      ∧ ∀ j : Nat, j < N →
          waitN j (postN N (Zem_init 0)) = some ⟨(N : Int) - j⟩ ∧ 0 < (N : Int) - j := by
  have hpost : postN N (Zem_init 0) = ⟨(N : Int)⟩ := by
    have := postN_of_range N 0 (by unfold INT_MIN; omega) (by omega)
    simpa [Zem_init] using this
  rw [hpost]
  constructor
  · have := waitN_of_range N 0 (le_refl 0) (by omega)
    simpa using this
  · intro j hj
    have hcast : ((N - j : Nat) : Int) = (N : Int) - j := by omega
    have := waitN_of_range j ((N : Int) - j) (by omega) (by omega)
    constructor
    · simpa using this
    · omega

theorem C2_post_wait_round_trip_witness :
    ((3 : Nat) : Int) ≤ INT_MAX ∧ waitN 3 (postN 3 (Zem_init 0)) = some ⟨0⟩ :=
  ⟨by decide, (C2_post_wait_round_trip 3 (by decide)).1⟩

/-- C2 as stated fails for N = 2147483648 = INT_MAX + 1: the last Zem_post
takes the int past INT_MAX, the value is then -2147483648 and the first
Zem_wait blocks. -/
theorem C2_int_overflow :
    (postN 2147483648 (Zem_init 0)).value = -2147483648
      ∧ waitN 2147483648 (postN 2147483648 (Zem_init 0)) = none := by
  have hv : (postN 2147483648 (Zem_init 0)).value = -2147483648 := by
    have := postN_value 2147483648 0 (by decide) (by decide)
    simpa [Zem_init, wrapInt] using this
  refine ⟨hv, ?_⟩
  cases hp : postN 2147483648 (Zem_init 0) with
  | mk v =>
    rw [hp] at hv
    simp only at hv
    subst hv
    exact waitN_blocked 2147483647 _ (by decide)

/-- C8, within the range of the int field: for every int c and every k with
c + k at most INT_MAX, k calls of Zem_post with no Zem_wait in between leave
value = c + k, and the value is non-negative when c is. -/
theorem C8_post_adds_one (c : Int) (k : Nat) (hc : INT_MIN ≤ c) (hk : c + k ≤ INT_MAX) :
    (postN k ⟨c⟩).value = c + k ∧ (0 ≤ c → 0 ≤ (postN k ⟨c⟩).value) := by
  rw [postN_of_range k c hc hk]
  exact ⟨rfl, fun h => by simp only; omega⟩

theorem C8_post_adds_one_witness :
    INT_MIN ≤ 2147483640 ∧ (2147483640 : Int) + (7 : Nat) ≤ INT_MAX
      ∧ (postN 7 ⟨2147483640⟩).value = 2147483640 + (7 : Nat) :=
  ⟨by decide, by decide, (C8_post_adds_one 2147483640 7 (by decide) (by decide)).1⟩

/-- C8 as stated fails when c is the largest int: one Zem_post leaves
-2147483648, which is not c + 1 and is negative. -/
theorem C8_largest_int :
    (postN 1 ⟨INT_MAX⟩).value = INT_MIN
      ∧ (postN 1 ⟨INT_MAX⟩).value ≠ INT_MAX + 1
      ∧ (postN 1 ⟨INT_MAX⟩).value < 0 := by
  decide

/-- C9: one iteration of the controller loop performs post North, post
South, wait North, wait South, post East, post West, wait East, wait West in
this order and writes Green, Yellow, Red for North-South then for East-West;
with no vehicles and all gates at 0, no step of the controller ever blocks and
after every iteration all four gates are back at 0. -/
theorem C9_controller_iteration (n : Nat) :
    trafficLightController.filterMap gateOp
        = [(true, NORTH), (true, SOUTH), (false, NORTH), (false, SOUTH),
           (true, EAST), (true, WEST), (false, EAST), (false, WEST)]
      ∧ trafficLightController.filterMap emitted = cycleOutput
      ∧ run Sim.init (List.replicate (18 * n) Actor.controller)
          = some ⟨fun _ => Zem_init 0, 0, [], (List.replicate n cycleOutput).flatten⟩
      ∧ (run Sim.init (List.replicate n Actor.controller)).isSome = true := by
  refine ⟨by decide, by decide, controller_cycles n, ?_⟩
  have hsplit : List.replicate (18 * n) Actor.controller
      = List.replicate n Actor.controller ++ List.replicate (17 * n) Actor.controller := by
    rw [← List.replicate_add]
    congr 1
    omega
  have h := controller_cycles n
  rw [hsplit, run_append] at h
  cases hr : run Sim.init (List.replicate n Actor.controller) with
  | none => simp [hr] at h
  | some t => rfl

/-! ## The command line -/

theorem getArguments_rejected (argv : List String) (vc : Int)
    (h : (getArguments argv vc).1 = false) : (getArguments argv vc).2 = vc := by
  unfold getArguments at h ⊢
  simp only at h ⊢
  split_ifs at h ⊢ <;> simp_all

theorem isdigit_not_isspace {c : Char} (h : isdigit c = true) : isspace c = false := by
  simp only [isdigit, isspace, Bool.and_eq_true, decide_eq_true_eq, Bool.or_eq_false_iff,
    Bool.and_eq_false_iff, decide_eq_false_iff_not] at h ⊢
  omega

theorem strtol_digits (l : List Char) (h : ∀ c ∈ l, isdigit c = true) :
    strtol l = min (digitsValue l : Int) LONG_MAX := by
  cases l with
  | nil => decide
  | cons c cs =>
    have hc := h c (List.mem_cons_self _ _)
    have hsp := isdigit_not_isspace hc
    have hminus : c ≠ '-' := by
      rintro rfl
      exact absurd hc (by decide)
    have hplus : c ≠ '+' := by
      rintro rfl
      exact absurd hc (by decide)
    have htake : (c :: cs).takeWhile isdigit = c :: cs := List.takeWhile_eq_self_iff.2 h
    have hdrop : (c :: cs).dropWhile isspace = c :: cs := by
      simp [List.dropWhile, hsp]
    unfold strtol
    simp only [hdrop]
    have hu : (match c :: cs with
        | '-' :: r => r
        | '+' :: r => r
        | _ => c :: cs) = c :: cs := by
      split
      · rename_i heq
        simp at heq
        exact absurd heq.1 hminus
      · rename_i heq
        simp at heq
        exact absurd heq.1 hplus
      · rfl
    rw [hu, htake]
    simp [hminus]

theorem strcmp_eq_zero_iff (a b : String) : strcmp a b = 0 ↔ a = b := by
  unfold strcmp
  split_ifs with h1 h2
  · simp [h1]
  · simp [h1]
  · simp [h1]

theorem getArguments_spec (argv : List String) (vc : Int) :
    getArguments argv vc =
      if argv.length = 3 ∧ argv.getD 1 "" = "-vc"
          ∧ (∀ c ∈ (argv.getD 2 "").toList, isdigit c = true)
          ∧ 10 ≤ min (digitsValue (argv.getD 2 "").toList : Int) LONG_MAX % 4294967296
          ∧ min (digitsValue (argv.getD 2 "").toList : Int) LONG_MAX % 4294967296 ≤ 500
      then (true, min (digitsValue (argv.getD 2 "").toList : Int) LONG_MAX % 4294967296)
      else (false, vc) := by
  unfold getArguments
  simp only
  generalize argv.getD 1 "" = a1
  generalize argv.getD 2 "" = a2
  by_cases h1 : argv.length = 1
  · rw [if_pos h1, if_neg (fun hh => by omega)]
  rw [if_neg h1]
  by_cases h3 : argv.length = 3
  swap
  · rw [if_pos h3, if_neg (fun hh => h3 hh.1)]
  rw [if_neg (not_not.2 h3)]
  by_cases hvc : a1 = "-vc"
  swap
  · rw [if_pos (fun hh => hvc ((strcmp_eq_zero_iff _ _).1 hh)), if_neg (fun hh => hvc hh.2.1)]
  rw [if_neg (not_not.2 ((strcmp_eq_zero_iff _ _).2 hvc))]
  by_cases hd : ∀ c ∈ a2.toList, isdigit c = true
  swap
  · have hany : a2.toList.any (fun c => !isdigit c) = true := by
      push_neg at hd
      obtain ⟨c, hc, hcd⟩ := hd
      exact List.any_eq_true.2 ⟨c, hc, by simpa using hcd⟩
    rw [if_pos hany, if_neg (fun hh => hd hh.2.2.1)]
  have hany : ¬ (a2.toList.any (fun c => !isdigit c) = true) := by
    rw [List.any_eq_true]
    rintro ⟨c, hc, hcd⟩
    simp [hd c hc] at hcd
  rw [if_neg hany]
  have hatoi : atoi a2 = wrapInt (min (digitsValue a2.toList : Int) LONG_MAX) := by
    unfold atoi
    rw [strtol_digits _ hd]
  rw [hatoi]
  generalize min (digitsValue a2.toList : Int) LONG_MAX = x
  have hU : toUnsigned (wrapInt x) = x % 4294967296 := by
    unfold toUnsigned wrapInt
    omega
  have hmax : ((VEHICLE_CNT_MAX : Nat) : Int) = 500 := rfl
  have hmin : ((VEHICLE_CNT_MIN : Nat) : Int) = 10 := rfl
  rw [hU, hmax, hmin]
  by_cases hr : 10 ≤ x % 4294967296 ∧ x % 4294967296 ≤ 500
  · have hw : wrapInt x = x % 4294967296 := by
      unfold wrapInt
      omega
    rw [if_neg (by omega), if_pos ⟨h3, hvc, hd, hr⟩, hw]
  · rw [if_pos (by omega), if_neg (fun hh => hr hh.2.2.2)]

theorem getArguments_fits_int (argv : List String) (vc : Int)
    (hfit : (digitsValue (argv.getD 2 "").toList : Int) ≤ INT_MAX) :
    getArguments argv vc =
      if argv.length = 3 ∧ argv.getD 1 "" = "-vc"
          ∧ (∀ c ∈ (argv.getD 2 "").toList, isdigit c = true)
          ∧ VEHICLE_CNT_MIN ≤ digitsValue (argv.getD 2 "").toList
          ∧ digitsValue (argv.getD 2 "").toList ≤ VEHICLE_CNT_MAX
      then (true, (digitsValue (argv.getD 2 "").toList : Int))
      else (false, vc) := by
  rw [getArguments_spec]
  have hx : min (digitsValue (argv.getD 2 "").toList : Int) LONG_MAX % 4294967296
      = (digitsValue (argv.getD 2 "").toList : Int) := by
    unfold INT_MAX at hfit
    unfold LONG_MAX
    have h0 : (0 : Int) ≤ (digitsValue (argv.getD 2 "").toList : Int) := Int.natCast_nonneg _
    rw [min_eq_left (by omega)]
    omega
  rw [hx]
  unfold VEHICLE_CNT_MIN VEHICLE_CNT_MAX
  congr 1
  simp only [eq_iff_iff]
  constructor
  · rintro ⟨a, b, c, d, e⟩
    exact ⟨a, b, c, by omega, by omega⟩
  · rintro ⟨a, b, c, d, e⟩
    exact ⟨a, b, c, by omega, by omega⟩

/-- C3 fails on the code for a digit string too large for an int:
"4294967306" (2^32 + 10) passes the digit check, atoi returns 10, and
getArguments returns true and stores 10. The other inputs the claim names
behave as it says: "10" and "500" are accepted, "9", "501", the empty string
and "99999999999999999999" are rejected with *vc unchanged. -/
theorem C3_overflowing_count_accepted :
    getArguments ["./traffic", "-vc", "4294967306"] 0 = (true, 10)
      ∧ getArguments ["./traffic", "-vc", "10"] 0 = (true, 10)
      ∧ getArguments ["./traffic", "-vc", "500"] 0 = (true, 500)
      ∧ getArguments ["./traffic", "-vc", "9"] 0 = (false, 0)
      ∧ getArguments ["./traffic", "-vc", "501"] 0 = (false, 0)
      ∧ getArguments ["./traffic", "-vc", ""] 0 = (false, 0)
      ∧ getArguments ["./traffic", "-vc", "99999999999999999999"] 0 = (false, 0) := by
  decide

/-- C4 fails on the code: main does not test what getArguments returns, so
for every argument vector getArguments rejects it still initialises the four
gates to 0 and creates the controller thread; it creates no vehicle thread
because vehicleCount is still 0, and then cancels the controller. -/
theorem C4_main_runs_after_rejection (argv : List String) (rand : Nat → Nat)
    (h : (getArguments argv 0).1 = false) :
    main argv rand
      = [ Call.Zem_init 0 0, Call.Zem_init 1 0, Call.Zem_init 2 0, Call.Zem_init 3 0,
          Call.createController, Call.cancelController, Call.joinController ] := by
  unfold main
  simp only [getArguments_rejected argv 0 h]
  rfl

theorem C4_main_runs_after_rejection_witness :
    (getArguments ["./traffic", "-vc", "9"] 0).1 = false
      ∧ main ["./traffic", "-vc", "9"] (fun i => i)
        = [ Call.Zem_init 0 0, Call.Zem_init 1 0, Call.Zem_init 2 0, Call.Zem_init 3 0,
            Call.createController, Call.cancelController, Call.joinController ] :=
  ⟨by decide, C4_main_runs_after_rejection ["./traffic", "-vc", "9"] (fun i => i) (by decide)⟩

end Traffic
